import Mathlib

/-!
Shallow embedding of `src/nle/scripts/play.py`, the interactive NLE play
session driver.  Python machine integers are `Nat`, Python floats are exact
rationals `ℚ`, terminal attributes are an opaque `Nat` blob, and the
process's observable side effects (prints, `env.step` calls, resets, close)
are recorded in an explicit state.  Fallible operations — the division by a
zero duration at line 160, a byte read that blocks forever — are modelled
with explicit error values that propagate.
-/

inductive Mode where
  | human
  | random
deriving DecidableEq

/-- Session flags: the subset of `FLAGS` that `play` and `get_action` read. -/
structure Config where
  isRawEnv : Bool
  mode : Mode
  maxSteps : Nat
  ngames : Nat
  noRender : Bool
  printFramesSeparately : Bool
  actions : List Nat
deriving DecidableEq

/-- Modelled from the spec: `_ACTIONS` (lines 20-24) is built from the
`nethack` enums `MiscAction.MORE`, `CompassDirection` and
`CompassDirectionLonger`, whose key codes live outside these sources; the
fixed ordered set of raw codes is carriage return plus the eight compass
keys and their shifted variants. -/
def ACTIONS : List Nat :=
  [13, 107, 108, 106, 104, 117, 121, 110, 98, 75, 76, 74, 72, 85, 89, 78, 66]

/-- Modelled from the spec: the designated interrupt code `nethack.C("c")`,
the control character for the letter c, which is byte 3. -/
def interruptCode : Nat := 3

/-- External collaborators as deterministic oracles: `stepDone ep k` and
`stepReward ep k` are the done flag and the reward produced by the k-th
`env.step` call (1-based) of episode `ep`; `endStatus ep` is
`info["end_status"].name` at the end of episode `ep`; `timer n` is the n-th
`timeit.default_timer()` reading (0-based); `sample n` drives the n-th
action-sampling call. -/
structure EnvModel where
  stepDone : Nat → Nat → Bool
  stepReward : Nat → Nat → ℚ
  endStatus : Nat → String
  timer : Nat → ℚ
  sample : Nat → Nat

/-- Observable print events, in emission order. -/
inductive Out where
  | render
  | printedAction (a : Nat)
  | abortMsg (ch : Nat)
  | retryPrompt (ch : Nat)
  | cursorUp2
  | finalReward (r : ℚ)
  | endStatusLine (s : String)
  | meanRewardLine (r : ℚ)
  | episodeLine (episode steps : Nat) (sps : ℚ)
  | finishedLine (episodes : Nat) (total : ℚ) (meanSps : ℚ)
deriving DecidableEq

/-- Failures that propagate out of the loop. -/
inductive Err where
  | zeroDivision
  | blockedRead
deriving DecidableEq

/-- The mutable state of `play`: the local counters and accumulators of the
loop, the clock and sampling call counters, the terminal attribute blob, and
the record of observable effects.  Pending operator input is threaded
separately as an explicit list. -/
structure St where
  steps : Nat
  episodes : Nat
  reward : ℚ
  meanSps : ℚ
  meanReward : ℚ
  totalStart : ℚ
  startTime : ℚ
  timerCalls : Nat
  sampleCalls : Nat
  term : Nat
  out : List Out
  envSteps : List Nat
  envResets : Nat
  envClosed : Bool
deriving DecidableEq

/-- Append one print event. -/
def emit (st : St) (e : Out) : St := { st with out := st.out ++ [e] }

/-- Terminal attribute blob installed by `tty.setraw(0)`. -/
def rawAttrs : Nat := 1

/-- Scoped raw-terminal acquisition (`no_echo`, lines 32-39): save the
current attributes with `tcgetattr`, enter raw mode, run the body, and
`tcsetattr` the saved attributes back on every exit path, failing or not. -/
def no_echo (body : List Nat → St → Except Err Nat × List Nat × St)
    (inp : List Nat) (st : St) : Except Err Nat × List Nat × St :=
  let tt := st.term
  let r := body inp { st with term := rawAttrs }
  (r.1, r.2.1, { r.2.2 with term := tt })

/-- One blocking byte read, `ord(os.read(0, 1))` (line 52); with no pending
input the read never returns, modelled as a propagating failure. -/
def readOne : List Nat → St → Except Err Nat × List Nat × St
  | [], st => (.error .blockedRead, [], st)
  | ch :: rest, st => (.ok ch, rest, st)

/-- Position of the first occurrence of `x`, Python's `list.index` used at
line 60 as `env._actions.index(ch)`; `none` models the `ValueError` branch. -/
def listIndex (x : Nat) : List Nat → Option Nat
  | [] => none
  | y :: ys => if y = x then some 0 else (listIndex x ys).map (fun i => i + 1)

/-- The interactive input loop of `get_action` (lines 50-69): read one byte
under `no_echo`; the interrupt code aborts, otherwise the byte itself is the
action (raw variant) or is looked up in `env._actions` (indexed variant);
a failed lookup prints a retry prompt, optionally the cursor-up escape, and
loops on the remaining input. -/
def humanLoop (cfg : Config) : List Nat → St → Except Err (Option Nat) × List Nat × St
  | [], st =>
    let r := no_echo readOne [] st
    (.error .blockedRead, r.2.1, r.2.2)
  | ch :: rest, st =>
    let st1 := (no_echo readOne (ch :: rest) st).2.2
    if ch = interruptCode then
      (.ok none, rest, emit st1 (.abortMsg ch))
    else if cfg.isRawEnv then
      (.ok (some ch), rest, st1)
    else
      match listIndex ch cfg.actions with
      | some idx => (.ok (some idx), rest, st1)
      | none =>
        let st2 := emit st1 (.retryPrompt ch)
        let st3 := if cfg.printFramesSeparately then st2 else emit st2 .cursorUp2
        humanLoop cfg rest st3

/-- Action selection (`get_action`, lines 42-70).  In random mode the action
is a uniformly drawn member of the action space: a sampled index for the
indexed variant, a uniformly chosen element of `_ACTIONS` (then printed) for
the raw variant.  In human mode it defers to the interactive input loop. -/
def get_action (cfg : Config) (env : EnvModel) (inp : List Nat) (st : St) :
    Except Err (Option Nat) × List Nat × St :=
  match cfg.mode with
  | .random =>
    if cfg.isRawEnv then
      let a := ACTIONS.getD (env.sample st.sampleCalls % ACTIONS.length) 0
      let st := { st with sampleCalls := st.sampleCalls + 1 }
      (.ok (some a), inp, emit st (.printedAction a))
    else
      let a := env.sample st.sampleCalls % cfg.actions.length
      (.ok (some a), inp, { st with sampleCalls := st.sampleCalls + 1 })
  | .human => humanLoop cfg inp st

/-- The incremental mean update `mean += (value - mean) / count` used for
the per-episode mean reward (line 148) and the session mean sps (line 164). -/
def incMean (m x : ℚ) (n : Nat) : ℚ := m + (x - m) / n

/-- The render block at the top of each loop iteration (lines 113-132). -/
def renderStep (cfg : Config) (st : St) : St :=
  if cfg.noRender then st else emit st .render

inductive EpOutcome where
  | boundary
  | aborted
  | failed (e : Err)
  | fuelOut
deriving DecidableEq

/-- One episode's worth of the `while True:` loop (lines 112-151): render,
pick an action, abort on the exit signal, otherwise `env.step`, count the
step, and either apply the explicit step cap (raw variant, line 146) or fold
the reward into the per-episode running mean (indexed variant, line 148);
loop while not done.  `fuel` bounds the number of steps taken. -/
def episodeLoop (cfg : Config) (env : EnvModel) :
    Nat → List Nat → St → EpOutcome × List Nat × St
  | 0, inp, st => (.fuelOut, inp, st)
  | fuel + 1, inp, st =>
    let st := renderStep cfg st
    match get_action cfg env inp st with
    | (.error e, inp, st) => (.failed e, inp, st)
    | (.ok none, inp, st) => (.aborted, inp, st)
    | (.ok (some a), inp, st) =>
      let ep := st.episodes
      let st := { st with envSteps := st.envSteps ++ [a], steps := st.steps + 1 }
      let k := st.steps
      if cfg.isRawEnv then
        let d := env.stepDone ep k || decide (cfg.maxSteps ≤ k)
        if d then (.boundary, inp, st) else episodeLoop cfg env fuel inp st
      else
        let r := env.stepReward ep k
        let st := { st with reward := r, meanReward := incMean st.meanReward r k }
        if env.stepDone ep k then (.boundary, inp, st)
        else episodeLoop cfg env fuel inp st

/-- Episode boundary (lines 153-169): measure the elapsed time, print the
rich-variant reward lines, compute `sps = steps / time_delta` — a zero delta
raises `ZeroDivisionError` — print the episode line with the pre-increment
episode counter, increment the counter, fold the sps into the running
session mean, restart the clock, and reset the per-episode state. -/
def boundary (cfg : Config) (env : EnvModel) (st : St) : Except Err Unit × St :=
  let tNow := env.timer st.timerCalls
  let st := { st with timerCalls := st.timerCalls + 1 }
  let timeDelta := tNow - st.startTime
  let st :=
    if cfg.isRawEnv then st
    else
      emit (emit (emit st (.finalReward st.reward))
        (.endStatusLine (env.endStatus st.episodes))) (.meanRewardLine st.meanReward)
  if timeDelta = 0 then (.error .zeroDivision, st)
  else
    let sps : ℚ := st.steps / timeDelta
    let st := emit st (.episodeLine st.episodes st.steps sps)
    let st := { st with episodes := st.episodes + 1 }
    let st := { st with meanSps := incMean st.meanSps sps st.episodes }
    let tNew := env.timer st.timerCalls
    let st := { st with timerCalls := st.timerCalls + 1,
                        startTime := tNew, steps := 0, meanReward := 0 }
    (.ok (), st)

inductive RunResult where
  | done
  | error (e : Err)
  | outOfFuel
deriving DecidableEq

/-- Loop exit (lines 174-178): `env.close()` and the session summary line
with the post-increment episode total. -/
def closeAndReport (env : EnvModel) (st : St) : St :=
  let st := { st with envClosed := true }
  let tNow := env.timer st.timerCalls
  let st := { st with timerCalls := st.timerCalls + 1 }
  emit st (.finishedLine st.episodes (tNow - st.totalStart) st.meanSps)

/-- The outer structure of the `while True:` loop: run one episode, process
its boundary, stop once `episodes == ngames` (line 171) or on the operator's
abort (line 137), `env.reset()` and rerun otherwise.  A propagating failure
skips `env.close()` and the summary.  `gas` bounds the number of episodes. -/
def sessionLoop (cfg : Config) (env : EnvModel) :
    Nat → Nat → List Nat → St → RunResult × List Nat × St
  | 0, _, inp, st => (.outOfFuel, inp, st)
  | gas + 1, stepFuel, inp, st =>
    match episodeLoop cfg env stepFuel inp st with
    | (.fuelOut, inp, st) => (.outOfFuel, inp, st)
    | (.failed e, inp, st) => (.error e, inp, st)
    | (.aborted, inp, st) => (.done, inp, closeAndReport env st)
    | (.boundary, inp, st) =>
      match boundary cfg env st with
      | (.error e, st) => (.error e, inp, st)
      | (.ok _, st) =>
        if st.episodes = cfg.ngames then (.done, inp, closeAndReport env st)
        else
          sessionLoop cfg env gas stepFuel inp { st with envResets := st.envResets + 1 }

/-- The whole `play()` function (lines 73-178): initial `env.reset()`,
zeroed counters, one timer reading shared by `total_start_time` and
`start_time` (lines 106-107), then the session loop.  `term0` is the
terminal attribute blob in force when the session starts. -/
def play (cfg : Config) (env : EnvModel) (gas stepFuel : Nat)
    (inp : List Nat) (term0 : Nat) : RunResult × List Nat × St :=
  let st : St :=
    { steps := 0, episodes := 0, reward := 0, meanSps := 0, meanReward := 0,
      totalStart := 0, startTime := 0, timerCalls := 0, sampleCalls := 0,
      term := term0, out := [], envSteps := [], envResets := 1, envClosed := false }
  let t0 := env.timer st.timerCalls
  let st := { st with timerCalls := 1, totalStart := t0, startTime := t0 }
  sessionLoop cfg env gas stepFuel inp st

/-- Folding `incMean` over a list of values, starting from mean `m` of `n`
earlier values: the running mean that lines 148 and 164 maintain. -/
def runMeanFrom : List ℚ → ℚ → Nat → ℚ
  | [], m, _ => m
  | x :: xs, m, n => runMeanFrom xs (incMean m x (n + 1)) (n + 1)

/-- The running mean of a value sequence, from a fresh zero state. -/
def runningMean (l : List ℚ) : ℚ := runMeanFrom l 0 0

/-- Modelled from the spec: the session-level running mean of per-episode
mean rewards that §4.4 prescribes as
`mean_of_episode_reward_means += (stats.mean_reward - ...) / count`;
stated here only to compare with what the code actually maintains. -/
def specMeanOfEpisodeMeans (ms : List ℚ) : ℚ := runningMean ms

/-- Event classifier used to extract the per-episode boundary lines. -/
def isEpisodeLine : Out → Bool
  | .episodeLine _ _ _ => true
  | _ => false

/-- Event classifier for retry prompts. -/
def isRetryPrompt : Out → Bool
  | .retryPrompt _ => true
  | _ => false

/-- The state change a rejected input byte causes (lines 63-68): one retry
prompt naming the byte, plus the cursor-up escape unless frames are printed
separately. -/
def retryEmit (cfg : Config) (st : St) (ch : Nat) : St :=
  let st2 := emit st (.retryPrompt ch)
  if cfg.printFramesSeparately then st2 else emit st2 .cursorUp2

/-- A fresh all-zero state, used for concrete evaluations. -/
def st0 : St :=
  { steps := 0, episodes := 0, reward := 0, meanSps := 0, meanReward := 0,
    totalStart := 0, startTime := 0, timerCalls := 0, sampleCalls := 0,
    term := 0, out := [], envSteps := [], envResets := 0, envClosed := false }

/-- A state whose next timer reading is the second one. -/
def stC1 : St := { st0 with timerCalls := 1 }

/-- Raw-variant, random-mode session of one single-step episode. -/
def cfgC1 : Config :=
  { isRawEnv := true, mode := .random, maxSteps := 1, ngames := 1,
    noRender := true, printFramesSeparately := true, actions := [] }

/-- Clock whose second and later readings sit one nanosecond after the
first: the episode duration is near zero but strictly positive. -/
def envC1 : EnvModel :=
  { stepDone := fun _ _ => false, stepReward := fun _ _ => 0,
    endStatus := fun _ => "", timer := fun n => if n = 0 then 0 else 1/1000000000,
    sample := fun _ => 0 }

/-- Indexed-variant, random-mode session of two single-step episodes. -/
def cfgC2 : Config :=
  { isRawEnv := false, mode := .random, maxSteps := 100, ngames := 2,
    noRender := true, printFramesSeparately := true, actions := [0] }

/-- Environment ending every episode after one step, paying reward 1 in the
first episode and 3 in the second, under a unit-interval clock. -/
def envC2 : EnvModel :=
  { stepDone := fun _ _ => true, stepReward := fun ep _ => if ep = 0 then 1 else 3,
    endStatus := fun _ => "DEATH", timer := fun n => n, sample := fun _ => 0 }

/-- Raw-variant, random-mode session with a step cap of 5 and a target of
two episodes. -/
def cfgC3 : Config :=
  { isRawEnv := true, mode := .random, maxSteps := 5, ngames := 2,
    noRender := true, printFramesSeparately := true, actions := [] }

/-- A minimal-variant environment that never signals done internally, under
a unit-interval clock; reward, end-status and sampling oracles are left
free. -/
def envC3 (rw : Nat → Nat → ℚ) (es : Nat → String) (sm : Nat → Nat) : EnvModel :=
  { stepDone := fun _ _ => false, stepReward := rw,
    endStatus := es, timer := fun n => n, sample := sm }

/-- Indexed-variant, random-mode session of one episode. -/
def cfgC4 : Config :=
  { isRawEnv := false, mode := .random, maxSteps := 100, ngames := 1,
    noRender := true, printFramesSeparately := true, actions := [0] }

/-- Environment paying rewards 1, 2, 3 on the three steps of its single
episode, which ends at the third step. -/
def envC4 : EnvModel :=
  { stepDone := fun _ k => k == 3, stepReward := fun _ k => k,
    endStatus := fun _ => "DEATH", timer := fun n => n, sample := fun _ => 0 }

/-- Never-done raw environment under a clock giving the first episode a
duration of 1 second and the second a duration of half a second, so the two
episodes run at 5 and 10 steps per second. -/
def envC4b : EnvModel :=
  { stepDone := fun _ _ => false, stepReward := fun _ _ => 0,
    endStatus := fun _ => "",
    timer := fun n => if n = 0 then 0 else if n = 1 then 1 else if n = 2 then 2
      else if n = 3 then 5/2 else 3,
    sample := fun _ => 0 }

/-- Human-mode indexed-variant session. -/
def cfgC6 : Config :=
  { isRawEnv := false, mode := .human, maxSteps := 100, ngames := 1,
    noRender := true, printFramesSeparately := true, actions := [13, 107, 108] }

/-- Human-mode raw-variant session. -/
def cfgC8 : Config :=
  { isRawEnv := true, mode := .human, maxSteps := 100, ngames := 1,
    noRender := true, printFramesSeparately := true, actions := [] }

/-- Raw-variant, random-mode session with a step cap of 1 and a target of
`n` episodes. -/
def cfgC5 (n : Nat) : Config :=
  { isRawEnv := true, mode := .random, maxSteps := 1, ngames := n,
    noRender := true, printFramesSeparately := true, actions := [] }

/-- Never-done raw environment under the identity clock. -/
def envC5 : EnvModel :=
  { stepDone := fun _ _ => false, stepReward := fun _ _ => 0,
    endStatus := fun _ => "", timer := fun n => n, sample := fun _ => 0 }

/-- The loop state at the start of an episode of the `cfgC5` session: the
step counter and per-episode mean are fresh, the start-of-episode clock
reading was the `c - 1`-st, and `c` timer calls have been made. -/
def stC5 (k c : Nat) (msps : ℚ) (outs : List Out) (tr : List Nat)
    (sc rs tm : Nat) : St :=
  { steps := 0, episodes := k, reward := 0, meanSps := msps, meanReward := 0,
    totalStart := 0, startTime := ((c - 1 : Nat) : ℚ), timerCalls := c,
    sampleCalls := sc, term := tm, out := outs, envSteps := tr,
    envResets := rs, envClosed := false }

/-- The loop state of the `cfgC5` session right after the single step of an
episode, before the boundary is processed. -/
def stC5b (k c : Nat) (msps : ℚ) (outs : List Out) (tr : List Nat)
    (sc rs tm : Nat) : St :=
  { steps := 1, episodes := k, reward := 0, meanSps := msps, meanReward := 0,
    totalStart := 0, startTime := ((c - 1 : Nat) : ℚ), timerCalls := c,
    sampleCalls := sc + 1, term := tm, out := outs ++ [Out.printedAction 13],
    envSteps := tr ++ [13], envResets := rs, envClosed := false }

theorem listIndex_lt (x : Nat) :
    ∀ (l : List Nat) (i : Nat), listIndex x l = some i → i < l.length := by
  intro l
  induction l with
  | nil => intro i h; simp [listIndex] at h
  | cons y ys ih =>
    intro i h
    by_cases hy : y = x
    · simp [listIndex, hy] at h
      simp only [List.length_cons]
      omega
    · simp [listIndex, hy] at h
      obtain ⟨j, hj, rfl⟩ := h
      have := ih j hj
      simp
      omega

theorem listIndex_eq_none (x : Nat) :
    ∀ (l : List Nat), x ∉ l → listIndex x l = none := by
  intro l
  induction l with
  | nil => intro _; rfl
  | cons y ys ih =>
    intro h
    have hy : y ≠ x := by
      intro e; exact h (by simp [e])
    have hys : x ∉ ys := by
      intro e; exact h (by simp [e])
    simp [listIndex, hy, ih hys]

theorem actions_getD_mem : ∀ i : Nat, i < 17 → ACTIONS.getD i 0 ∈ ACTIONS := by
  decide

/-- The interactive input loop only appends print events: every other state
field, in particular the step counter, the episode statistics, the recorded
environment interactions and the terminal attributes, is left unchanged. -/
theorem humanLoop_state (cfg : Config) :
    ∀ (inp : List Nat) (st : St), ∃ os,
      (humanLoop cfg inp st).2.2 = { st with out := os } := by
  intro inp
  induction inp with
  | nil =>
    intro st
    exact ⟨st.out, rfl⟩
  | cons ch rest ih =>
    intro st
    by_cases hch : ch = interruptCode
    · exact ⟨st.out ++ [Out.abortMsg ch], by simp [humanLoop, hch, no_echo, readOne, emit]⟩
    · by_cases hraw : cfg.isRawEnv
      · exact ⟨st.out, by simp [humanLoop, hch, hraw, no_echo, readOne]⟩
      · cases hidx : listIndex ch cfg.actions with
        | some idx =>
          exact ⟨st.out, by simp [humanLoop, hch, hraw, hidx, no_echo, readOne]⟩
        | none =>
          by_cases hp : cfg.printFramesSeparately
          · obtain ⟨os, h⟩ := ih (emit { st with term := st.term } (.retryPrompt ch))
            refine ⟨os, ?_⟩
            simp [humanLoop, hch, hraw, hidx, hp, no_echo, readOne]
            simpa [emit] using h
          · obtain ⟨os, h⟩ :=
              ih (emit (emit { st with term := st.term } (.retryPrompt ch)) .cursorUp2)
            refine ⟨os, ?_⟩
            simp [humanLoop, hch, hraw, hidx, hp, no_echo, readOne]
            simpa [emit] using h

theorem renderStep_term (cfg : Config) (st : St) : (renderStep cfg st).term = st.term := by
  unfold renderStep
  split <;> rfl

theorem get_action_term (cfg : Config) (env : EnvModel) (inp : List Nat) (st : St) :
    (get_action cfg env inp st).2.2.term = st.term := by
  cases hm : cfg.mode with
  | human =>
    obtain ⟨os, h⟩ := humanLoop_state cfg inp st
    simp [get_action, hm, h]
  | random =>
    by_cases hraw : cfg.isRawEnv
    · simp [get_action, hm, hraw, emit]
    · simp [get_action, hm, hraw]

theorem get_action_envSteps (cfg : Config) (env : EnvModel) (inp : List Nat) (st : St) :
    (get_action cfg env inp st).2.2.envSteps = st.envSteps := by
  cases hm : cfg.mode with
  | human =>
    obtain ⟨os, h⟩ := humanLoop_state cfg inp st
    simp [get_action, hm, h]
  | random =>
    by_cases hraw : cfg.isRawEnv
    · simp [get_action, hm, hraw, emit]
    · simp [get_action, hm, hraw]

theorem episodeLoop_term (cfg : Config) (env : EnvModel) :
    ∀ (fuel : Nat) (inp : List Nat) (st : St),
      (episodeLoop cfg env fuel inp st).2.2.term = st.term := by
  intro fuel
  induction fuel with
  | zero => intro inp st; rfl
  | succ fuel ih =>
    intro inp st
    have hterm : (get_action cfg env inp (renderStep cfg st)).2.2.term = st.term := by
      rw [get_action_term, renderStep_term]
    simp only [episodeLoop]
    rcases hga : get_action cfg env inp (renderStep cfg st) with ⟨r, inp1, st1⟩
    rw [hga] at hterm
    cases r with
    | error e => simpa using hterm
    | ok oa =>
      cases oa with
      | none => simpa using hterm
      | some a =>
        have h1 : st1.term = st.term := by simpa using hterm
        by_cases hraw : cfg.isRawEnv
        · simp [hraw]
          split <;> simp [ih, h1]
        · simp [hraw]
          split <;> simp [ih, h1]

theorem boundary_term (cfg : Config) (env : EnvModel) (st : St) :
    (boundary cfg env st).2.term = st.term := by
  simp only [boundary, emit]
  split <;> split <;> rfl

theorem closeAndReport_term (env : EnvModel) (st : St) :
    (closeAndReport env st).term = st.term := rfl

theorem sessionLoop_term (cfg : Config) (env : EnvModel) :
    ∀ (gas stepFuel : Nat) (inp : List Nat) (st : St),
      (sessionLoop cfg env gas stepFuel inp st).2.2.term = st.term := by
  intro gas
  induction gas with
  | zero => intro sf inp st; rfl
  | succ gas ih =>
    intro sf inp st
    have hep := episodeLoop_term cfg env sf inp st
    simp only [sessionLoop]
    rcases hga : episodeLoop cfg env sf inp st with ⟨r, inp1, st1⟩
    rw [hga] at hep
    simp only at hep
    cases r with
    | fuelOut => simpa using hep
    | failed e => simpa using hep
    | aborted => simpa [closeAndReport_term] using hep
    | boundary =>
      have hep1 : st1.term = st.term := by simpa using hep
      have hb := boundary_term cfg env st1
      dsimp only
      rcases hbr : boundary cfg env st1 with ⟨br, st2⟩
      rw [hbr] at hb
      simp only at hb
      cases br with
      | error e =>
        simpa using hb.trans hep1
      | ok u =>
        simp only []
        split
        · simp [closeAndReport_term, hb, hep1]
        · rw [ih]
          simp [hb, hep1]

/-- C9: the raw-terminal scope restores the device's prior attributes on
every exit path, and consequently the terminal attributes observed after a
whole session — whether it ends normally, by operator interrupt, or by a
propagated failure — equal the attributes observed before it. -/
theorem c9_terminal_restored :
    (∀ (body : List Nat → St → Except Err Nat × List Nat × St) (inp : List Nat) (st : St),
      (no_echo body inp st).2.2.term = st.term) ∧
    (∀ (cfg : Config) (env : EnvModel) (gas stepFuel : Nat) (inp : List Nat) (term0 : Nat),
      (play cfg env gas stepFuel inp term0).2.2.term = term0) := by
  constructor
  · intro body inp st
    rfl
  · intro cfg env gas stepFuel inp term0
    simp only [play]
    rw [sessionLoop_term]

/-- C1 counterexample: an episode whose wall-clock duration is one
nanosecond — near zero but not zero — is processed without any error
condition; the code divides anyway and prints the huge steps-per-second
value 1000000000 for a one-step episode, so no positivity guard exists. -/
theorem c1_counterexample :
    (play cfgC1 envC1 1 1 [] 0).1 = RunResult.done ∧
    Out.episodeLine 0 1 1000000000 ∈ (play cfgC1 envC1 1 1 [] 0).2.2.out := by
  constructor <;>
    norm_num [play, sessionLoop, episodeLoop, boundary, get_action, renderStep,
      closeAndReport, emit, incMean, cfgC1, envC1, ACTIONS]

/-- C2 counterexample: a completed session of two rich-variant episodes
whose per-episode mean rewards are 1 and 3.  The value the spec's update
rule would maintain is 2, but the code keeps no such statistic: the only
reward accumulator, `mean_reward`, is per-episode — it is printed at each
boundary and reset, ending the session at 0 — and the session summary
carries only the episode count, the elapsed time, and the mean sps. -/
theorem c2_counterexample :
    (play cfgC2 envC2 2 1 [] 0).1 = RunResult.done ∧
    Out.meanRewardLine 1 ∈ (play cfgC2 envC2 2 1 [] 0).2.2.out ∧
    Out.meanRewardLine 3 ∈ (play cfgC2 envC2 2 1 [] 0).2.2.out ∧
    specMeanOfEpisodeMeans [1, 3] = 2 ∧
    (play cfgC2 envC2 2 1 [] 0).2.2.meanReward = 0 ∧
    (play cfgC2 envC2 2 1 [] 0).2.2.meanReward ≠ specMeanOfEpisodeMeans [1, 3] ∧
    (play cfgC2 envC2 2 1 [] 0).2.2.meanSps = 1 ∧
    Out.finishedLine 2 5 1 ∈ (play cfgC2 envC2 2 1 [] 0).2.2.out := by
  refine ⟨?_, ?_, ?_, ?_, ?_, ?_, ?_, ?_⟩ <;>
    norm_num [play, sessionLoop, episodeLoop, boundary, get_action, renderStep,
      closeAndReport, emit, incMean, cfgC2, envC2, specMeanOfEpisodeMeans,
      runningMean, runMeanFrom]

/-- C6: in human mode, when the designated interrupt code is the very first
input byte, the session ends with 0 completed episodes, no `env.step` call
is ever made, the terminal attributes are restored to their prior value,
and the environment is still closed on the way out. -/
theorem c6_interrupt_first_input :
    (play cfgC6 envC2 1 1 [interruptCode] 42).1 = RunResult.done ∧
    (play cfgC6 envC2 1 1 [interruptCode] 42).2.2.episodes = 0 ∧
    (play cfgC6 envC2 1 1 [interruptCode] 42).2.2.envSteps = [] ∧
    (play cfgC6 envC2 1 1 [interruptCode] 42).2.2.term = 42 ∧
    Out.abortMsg 3 ∈ (play cfgC6 envC2 1 1 [interruptCode] 42).2.2.out ∧
    (play cfgC6 envC2 1 1 [interruptCode] 42).2.2.envClosed = true := by
  decide

/-- C8 counterexample: in human mode with the raw variant, the byte 120
(the letter x) is returned as the action unvalidated, even though it is not
a member of the fixed raw-code action set `_ACTIONS`. -/
theorem c8_counterexample :
    (humanLoop cfgC8 [120] st0).1 = Except.ok (some 120) ∧ 120 ∉ ACTIONS :=
  ⟨rfl, by decide⟩

/-- C1 amended: no positivity guard exists at the episode boundary.  The
division `sps = steps / time_delta` is performed for every nonzero duration,
however small, producing the correspondingly large finite sps value, and an
exactly-zero duration raises an unhandled division-by-zero error that
propagates out of the loop. -/
theorem c1_amended (cfg : Config) (env : EnvModel) (st : St) :
    (env.timer st.timerCalls - st.startTime = 0 →
      (boundary cfg env st).1 = Except.error Err.zeroDivision) ∧
    (env.timer st.timerCalls - st.startTime ≠ 0 →
      (boundary cfg env st).1 = Except.ok () ∧
      Out.episodeLine st.episodes st.steps
          ((st.steps : ℚ) / (env.timer st.timerCalls - st.startTime))
        ∈ (boundary cfg env st).2.out) := by
  constructor
  · intro h
    by_cases hr : cfg.isRawEnv <;> simp [boundary, hr, h]
  · intro h
    by_cases hr : cfg.isRawEnv <;> simp [boundary, hr, h, emit]

theorem c1_amended_witness :
    (boundary cfgC1 envC1 st0).1 = Except.error Err.zeroDivision ∧
    (boundary cfgC1 envC1 stC1).1 = Except.ok () := by
  constructor
  · exact (c1_amended cfgC1 envC1 st0).1 (by norm_num [envC1, st0])
  · exact ((c1_amended cfgC1 envC1 stC1).2 (by norm_num [envC1, stC1, st0])).1

/-- C2 amended: `mean_reward` is a per-episode statistic only.  At each
episode boundary the rich variant prints it, the boundary resets it to
zero, and the only session-level statistic folded across episodes is the
mean steps-per-second; no session-level running mean of per-episode mean
rewards is maintained anywhere. -/
theorem c2_amended (cfg : Config) (env : EnvModel) (st : St)
    (h : env.timer st.timerCalls - st.startTime ≠ 0) :
    (cfg.isRawEnv = false →
      Out.meanRewardLine st.meanReward ∈ (boundary cfg env st).2.out) ∧
    (boundary cfg env st).2.meanReward = 0 ∧
    (boundary cfg env st).2.meanSps =
      incMean st.meanSps ((st.steps : ℚ) / (env.timer st.timerCalls - st.startTime))
        (st.episodes + 1) := by
  refine ⟨?_, ?_, ?_⟩
  · intro hr
    simp [boundary, hr, h, emit]
  · by_cases hr : cfg.isRawEnv <;> simp [boundary, hr, h, emit]
  · by_cases hr : cfg.isRawEnv <;> simp [boundary, hr, h, emit]

theorem c2_amended_witness :
    Out.meanRewardLine stC1.meanReward ∈ (boundary cfgC2 envC2 stC1).2.out ∧
    (boundary cfgC2 envC2 stC1).2.meanReward = 0 := by
  have h := c2_amended cfgC2 envC2 stC1 (by norm_num [envC2, stC1, st0])
  exact ⟨h.1 rfl, h.2.1⟩

/-- C10: the episode number printed in the boundary line is the
pre-increment count of previously completed episodes, and the boundary then
increments the counter; concretely, a two-episode session prints episode
lines numbered 0 and 1 while the final summary reports the post-increment
total 2. -/
theorem c10_episode_numbering :
    (∀ (cfg : Config) (env : EnvModel) (st : St),
      env.timer st.timerCalls - st.startTime ≠ 0 →
      (boundary cfg env st).2.episodes = st.episodes + 1 ∧
      Out.episodeLine st.episodes st.steps
          ((st.steps : ℚ) / (env.timer st.timerCalls - st.startTime))
        ∈ (boundary cfg env st).2.out) ∧
    (play cfgC2 envC2 2 1 [] 0).2.2.out.filter isEpisodeLine
      = [Out.episodeLine 0 1 1, Out.episodeLine 1 1 1] ∧
    Out.finishedLine 2 5 1 ∈ (play cfgC2 envC2 2 1 [] 0).2.2.out ∧
    (play cfgC2 envC2 2 1 [] 0).2.2.episodes = 2 := by
  refine ⟨?_, ?_, ?_, ?_⟩
  · intro cfg env st h
    constructor
    · by_cases hr : cfg.isRawEnv <;> simp [boundary, hr, h, emit]
    · by_cases hr : cfg.isRawEnv <;> simp [boundary, hr, h, emit]
  · norm_num [play, sessionLoop, episodeLoop, boundary, get_action, renderStep,
      closeAndReport, emit, incMean, cfgC2, envC2, isEpisodeLine]
  · norm_num [play, sessionLoop, episodeLoop, boundary, get_action, renderStep,
      closeAndReport, emit, incMean, cfgC2, envC2]
  · norm_num [play, sessionLoop, episodeLoop, boundary, get_action, renderStep,
      closeAndReport, emit, incMean, cfgC2, envC2]

theorem c10_witness :
    (boundary cfgC2 envC2 stC1).2.episodes = stC1.episodes + 1 :=
  (c10_episode_numbering.1 cfgC2 envC2 stC1 (by norm_num [envC2, stC1, st0])).1

set_option maxHeartbeats 2000000 in
/-- C3: in the minimal (raw) variant the runner itself truncates at the
step cap.  For every reward oracle, end-status oracle and sampling
sequence, a random-mode session over a minimal-variant environment that
never signals done internally, with a cap of 5 steps and a target of 2
episodes, completes exactly 2 episodes, each truncated at step count 5. -/
theorem c3_step_cap_truncation :
    ∀ (rw : Nat → Nat → ℚ) (es : Nat → String) (sm : Nat → Nat),
      (play cfgC3 (envC3 rw es sm) 2 5 [] 0).1 = RunResult.done ∧
      (play cfgC3 (envC3 rw es sm) 2 5 [] 0).2.2.episodes = 2 ∧
      (play cfgC3 (envC3 rw es sm) 2 5 [] 0).2.2.out.filter isEpisodeLine
        = [Out.episodeLine 0 5 5, Out.episodeLine 1 5 5] := by
  intro rw es sm
  refine ⟨?_, ?_, ?_⟩ <;>
    norm_num [play, sessionLoop, episodeLoop, boundary, get_action, renderStep,
      closeAndReport, emit, incMean, cfgC3, envC3, isEpisodeLine, ACTIONS]

theorem runMeanFrom_spec :
    ∀ (xs : List ℚ) (m : ℚ) (n : Nat),
      runMeanFrom xs m (n + 1) =
        (((n : ℚ) + 1) * m + xs.sum) / ((n : ℚ) + 1 + xs.length) := by
  intro xs
  induction xs with
  | nil =>
    intro m n
    have h1 : ((n : ℚ) + 1) ≠ 0 := by positivity
    simp [runMeanFrom]
    field_simp
  | cons x xs ih =>
    intro m n
    have h2 : ((n : ℚ) + 1 + 1) ≠ 0 := by positivity
    have h3 : ((n : ℚ) + 1 + 1 + (xs.length : ℚ)) ≠ 0 := by positivity
    show runMeanFrom xs (incMean m x (n + 1 + 1)) (n + 1 + 1) = _
    rw [ih (incMean m x (n + 1 + 1)) (n + 1)]
    simp only [incMean, List.sum_cons, List.length_cons]
    push_cast
    field_simp
    ring

theorem runningMean_eq (l : List ℚ) : runningMean l = l.sum / l.length := by
  cases l with
  | nil => simp [runningMean, runMeanFrom]
  | cons x xs =>
    show runMeanFrom xs (incMean 0 x (0 + 1)) (0 + 1) = _
    have hx : incMean 0 x (0 + 1) = x := by
      simp [incMean]
    rw [hx, runMeanFrom_spec xs x 0]
    simp only [List.sum_cons, List.length_cons]
    push_cast
    ring_nf

/-- C4: folding the code's incremental update `mean += (value - mean) /
count` over any value sequence yields the exact arithmetic mean of the
recorded values under exact arithmetic; concretely, rewards 1, 2, 3 in a
single rich-variant episode print a final per-episode mean reward of
exactly 2, and two raw-variant episodes running at 5 and 10 steps per
second leave a session mean sps of exactly their mean 15/2. -/
theorem c4_running_mean_exact :
    (∀ l : List ℚ, runningMean l = l.sum / l.length) ∧
    Out.meanRewardLine 2 ∈ (play cfgC4 envC4 1 3 [] 0).2.2.out ∧
    (play cfgC3 envC4b 2 5 [] 0).2.2.meanSps = 15 / 2 := by
  refine ⟨runningMean_eq, ?_, ?_⟩
  · norm_num [play, sessionLoop, episodeLoop, boundary, get_action, renderStep,
      closeAndReport, emit, incMean, cfgC4, envC4]
  · norm_num [play, sessionLoop, episodeLoop, boundary, get_action, renderStep,
      closeAndReport, emit, incMean, cfgC3, envC4b, ACTIONS]

/-- C7: a raw input byte that fails to resolve to a member of the action
space causes exactly one retry prompt naming the byte (plus the cursor-up
escape unless frames are printed separately) and a loop reading the next
byte; the rejected byte leaves the step counter, the per-episode reward
statistics and the recorded environment interactions untouched, and action
selection never touches the environment at all. -/
theorem c7_invalid_input_retries (cfg : Config) (ch : Nat) (rest : List Nat) (st : St)
    (hraw : cfg.isRawEnv = false) (hch : ch ≠ interruptCode)
    (hmem : ch ∉ cfg.actions) :
    humanLoop cfg (ch :: rest) st = humanLoop cfg rest (retryEmit cfg st ch) ∧
    (retryEmit cfg st ch).out.countP isRetryPrompt
      = st.out.countP isRetryPrompt + 1 ∧
    Out.retryPrompt ch ∈ (retryEmit cfg st ch).out ∧
    (retryEmit cfg st ch).steps = st.steps ∧
    (retryEmit cfg st ch).meanReward = st.meanReward ∧
    (retryEmit cfg st ch).envSteps = st.envSteps ∧
    (∀ (r : Except Err (Option Nat)) (inp2 : List Nat) (st2 : St),
      humanLoop cfg (ch :: rest) st = (r, inp2, st2) → st2.envSteps = st.envSteps) := by
  have hidx : listIndex ch cfg.actions = none := listIndex_eq_none ch cfg.actions hmem
  refine ⟨?_, ?_, ?_, ?_, ?_, ?_, ?_⟩
  · simp [humanLoop, hch, hraw, hidx, retryEmit, no_echo, readOne, emit]
  · by_cases hp : cfg.printFramesSeparately <;>
      simp [retryEmit, emit, hp, List.countP_append, isRetryPrompt]
  · by_cases hp : cfg.printFramesSeparately <;> simp [retryEmit, emit, hp]
  · by_cases hp : cfg.printFramesSeparately <;> simp [retryEmit, emit, hp]
  · by_cases hp : cfg.printFramesSeparately <;> simp [retryEmit, emit, hp]
  · by_cases hp : cfg.printFramesSeparately <;> simp [retryEmit, emit, hp]
  · intro r inp2 st2 h
    obtain ⟨os, hs⟩ := humanLoop_state cfg (ch :: rest) st
    rw [h] at hs
    simp only at hs
    rw [hs]

theorem c7_witness :
    humanLoop cfgC6 [120, 107] st0 = humanLoop cfgC6 [107] (retryEmit cfgC6 st0 120) ∧
    (retryEmit cfgC6 st0 120).out.countP isRetryPrompt
      = st0.out.countP isRetryPrompt + 1 ∧
    Out.retryPrompt 120 ∈ (retryEmit cfgC6 st0 120).out :=
  ⟨(c7_invalid_input_retries cfgC6 120 [107] st0 rfl (by decide) (by decide)).1,
   (c7_invalid_input_retries cfgC6 120 [107] st0 rfl (by decide) (by decide)).2.1,
   (c7_invalid_input_retries cfgC6 120 [107] st0 rfl (by decide) (by decide)).2.2.1⟩

theorem humanLoop_indexed_lt (cfg : Config) (hraw : cfg.isRawEnv = false) :
    ∀ (inp : List Nat) (st : St) (a : Nat) (inp2 : List Nat) (st2 : St),
      humanLoop cfg inp st = (Except.ok (some a), inp2, st2) →
      a < cfg.actions.length := by
  intro inp
  induction inp with
  | nil =>
    intro st a inp2 st2 h
    simp [humanLoop] at h
  | cons ch rest ih =>
    intro st a inp2 st2 h
    by_cases hch : ch = interruptCode
    · simp [humanLoop, hch] at h
    · cases hidx : listIndex ch cfg.actions with
      | some idx =>
        simp [humanLoop, hch, hraw, hidx] at h
        exact h.1 ▸ listIndex_lt ch cfg.actions idx hidx
      | none =>
        simp only [humanLoop, hch, hraw, hidx, if_false, Bool.false_eq_true] at h
        exact ih _ a inp2 st2 h

/-- C8 amended: in random mode the returned action is a member of the
action space for both variants — an element of the fixed `_ACTIONS` set for
the raw variant, a valid index for the indexed variant — and in human mode
with the indexed variant any returned action is a valid index into
`env._actions`; in human mode with the raw variant, however, the raw byte
is returned without validation (see the counterexample) and may lie outside
the fixed raw-code set.  The exit signal aside, action selection itself
never touches the environment. -/
theorem c8_amended (cfg : Config) (env : EnvModel) (inp : List Nat) (st : St) :
    (cfg.mode = Mode.random → cfg.isRawEnv = true →
      ∃ a, (get_action cfg env inp st).1 = Except.ok (some a) ∧ a ∈ ACTIONS) ∧
    (cfg.mode = Mode.random → cfg.isRawEnv = false → cfg.actions ≠ [] →
      ∃ a, (get_action cfg env inp st).1 = Except.ok (some a) ∧
        a < cfg.actions.length) ∧
    (cfg.isRawEnv = false → ∀ (a : Nat) (inp2 : List Nat) (st2 : St),
      humanLoop cfg inp st = (Except.ok (some a), inp2, st2) →
      a < cfg.actions.length) ∧
    (get_action cfg env inp st).2.2.envSteps = st.envSteps := by
  refine ⟨?_, ?_, ?_, ?_⟩
  · intro hm hr
    refine ⟨ACTIONS.getD (env.sample st.sampleCalls % ACTIONS.length) 0, ?_, ?_⟩
    · simp [get_action, hm, hr]
    · exact actions_getD_mem _ (Nat.mod_lt _ (by decide))
  · intro hm hr hne
    refine ⟨env.sample st.sampleCalls % cfg.actions.length, ?_, ?_⟩
    · simp [get_action, hm, hr]
    · exact Nat.mod_lt _ (List.length_pos.mpr hne)
  · intro hr
    exact humanLoop_indexed_lt cfg hr inp st
  · exact get_action_envSteps cfg env inp st

theorem c8_amended_witness :
    (∃ a, (get_action cfgC3 (envC3 (fun _ _ => 0) (fun _ => "") (fun _ => 0)) [] st0).1
        = Except.ok (some a) ∧ a ∈ ACTIONS) ∧
    (∃ a, (get_action cfgC2 envC2 [] st0).1 = Except.ok (some a) ∧
        a < cfgC2.actions.length) :=
  ⟨(c8_amended cfgC3 (envC3 (fun _ _ => 0) (fun _ => "") (fun _ => 0)) [] st0).1 rfl rfl,
   (c8_amended cfgC2 envC2 [] st0).2.1 rfl rfl (by decide)⟩


theorem episodeLoopC5 (n : Nat) (inp : List Nat) (st : St) :
    episodeLoop (cfgC5 n) envC5 1 inp st =
      (EpOutcome.boundary, inp,
        { st with sampleCalls := st.sampleCalls + 1,
                  out := st.out ++ [Out.printedAction 13],
                  envSteps := st.envSteps ++ [13],
                  steps := st.steps + 1 }) := by
  simp [episodeLoop, get_action, renderStep, cfgC5, envC5, emit, ACTIONS]


theorem episodeLoopC5x (n k c : Nat) (msps : ℚ) (outs : List Out) (tr : List Nat)
    (sc rs tm : Nat) :
    episodeLoop (cfgC5 n) envC5 1 [] (stC5 k c msps outs tr sc rs tm)
      = (EpOutcome.boundary, [], stC5b k c msps outs tr sc rs tm) := by
  rw [episodeLoopC5]
  simp [stC5, stC5b]

theorem boundaryC5 (n k c : Nat) (hc : 1 ≤ c) (msps : ℚ) (outs : List Out)
    (tr : List Nat) (sc rs tm : Nat) :
    boundary (cfgC5 n) envC5 (stC5b k c msps outs tr sc rs tm)
      = (Except.ok (),
         stC5 (k + 1) (c + 2) (incMean msps 1 (k + 1))
           (outs ++ [Out.printedAction 13, Out.episodeLine k 1 1]) (tr ++ [13])
           (sc + 1) rs tm) := by
  have hc1 : ((c - 1 : Nat) : ℚ) = (c : ℚ) - 1 := by
    rw [Nat.cast_sub hc]
    norm_num
  have h21 : (c + 2 - 1 : Nat) = c + 1 := by omega
  simp [boundary, stC5, stC5b, cfgC5, envC5, emit, hc1, h21, sub_sub_cancel]

theorem sessionLoopC5 (n : Nat) :
    ∀ (g k c : Nat) (msps : ℚ) (outs : List Out) (tr : List Nat) (sc rs tm : Nat),
      k + g = n → 0 < g → 1 ≤ c →
      (sessionLoop (cfgC5 n) envC5 g 1 [] (stC5 k c msps outs tr sc rs tm)).1
          = RunResult.done ∧
      (sessionLoop (cfgC5 n) envC5 g 1 []
          (stC5 k c msps outs tr sc rs tm)).2.2.episodes = n ∧
      (sessionLoop (cfgC5 n) envC5 g 1 []
          (stC5 k c msps outs tr sc rs tm)).2.2.envClosed = true ∧
      ∃ t m, Out.finishedLine n t m
          ∈ (sessionLoop (cfgC5 n) envC5 g 1 [] (stC5 k c msps outs tr sc rs tm)).2.2.out := by
  intro g
  induction g with
  | zero =>
    intro k c msps outs tr sc rs tm hk hg hc
    exact absurd hg (by omega)
  | succ g ih =>
    intro k c msps outs tr sc rs tm hk hg hc
    by_cases hend : k + 1 = n
    · subst hend
      refine ⟨?_, ?_, ?_, ⟨((c + 2 : ℕ) : ℚ), incMean msps 1 (k + 1), ?_⟩⟩ <;>
        · simp only [sessionLoop]
          rw [episodeLoopC5x]
          dsimp only
          rw [boundaryC5 _ _ _ hc]
          simp [stC5, cfgC5, closeAndReport, envC5, emit]
    · have hgpos : 0 < g := by omega
      obtain ⟨ih1, ih2, ih3, ih4⟩ :=
        ih (k + 1) (c + 2) (incMean msps 1 (k + 1))
          (outs ++ [Out.printedAction 13, Out.episodeLine k 1 1]) (tr ++ [13])
          (sc + 1) (rs + 1) tm (by omega) hgpos (by omega)
      have hpe : (stC5 (k + 1) (c + 2) (incMean msps 1 (k + 1))
          (outs ++ [Out.printedAction 13, Out.episodeLine k 1 1]) (tr ++ [13])
          (sc + 1) rs tm).episodes = k + 1 := rfl
      have hng : (cfgC5 n).ngames = n := rfl
      simp only [stC5] at ih1 ih2 ih3 ih4
      refine ⟨?_, ?_, ?_, ?_⟩ <;>
        · simp only [sessionLoop]
          rw [episodeLoopC5x]
          dsimp only
          rw [boundaryC5 _ _ _ hc]
          dsimp only
          simp only [hpe, hng]
          rw [if_neg hend]
          simp only [stC5]
          first
            | exact ih1
            | exact ih2
            | exact ih3
            | exact ih4

/-- C5: for every configured episode target of at least 1, a session in
which the operator never issues the interrupt code runs exactly that many
completed episodes — the loop stops when the incremented episode counter
equals the target — then closes the environment and prints the summary
line reporting the target count.  The session is run on the random-mode
single-step raw scenario, whose episodes always terminate, with one unit
of session fuel per target episode, which also witnesses termination. -/
theorem c5_session_terminates (n : Nat) (hn : 1 ≤ n) :
    (play (cfgC5 n) envC5 n 1 [] 0).1 = RunResult.done ∧
    (play (cfgC5 n) envC5 n 1 [] 0).2.2.episodes = n ∧
    (play (cfgC5 n) envC5 n 1 [] 0).2.2.envClosed = true ∧
    ∃ t m, Out.finishedLine n t m ∈ (play (cfgC5 n) envC5 n 1 [] 0).2.2.out := by
  have h := sessionLoopC5 n n 0 1 0 [] [] 0 1 0 (by omega) (by omega) (by omega)
  simp only [stC5, Nat.sub_self, Nat.cast_zero] at h
  simp only [play, envC5, Nat.cast_zero]
  exact h

theorem c5_witness :
    (play (cfgC5 2) envC5 2 1 [] 0).1 = RunResult.done ∧
    (play (cfgC5 2) envC5 2 1 [] 0).2.2.episodes = 2 ∧
    (play (cfgC5 2) envC5 2 1 [] 0).2.2.envClosed = true ∧
    ∃ t m, Out.finishedLine 2 t m ∈ (play (cfgC5 2) envC5 2 1 [] 0).2.2.out :=
  c5_session_terminates 2 (by omega)
